import Mathlib

/-!
Shallow embedding of the conversational product-search backend
(`src/backend/src/rag_pipeline.py`, `src/backend/src/llm_handler.py`,
`src/backend/src/api/routers/search.py`, `src/backend/src/api/routers/products.py`,
data model from `src/backend/src/data_models.py`), together with theorems
settling the specification claims about the chunker, the response
reconciliation pipeline, the retry/degrade logic and the session store.

Python strings are modelled as Lean `String` (a structure over `List Char`
in this toolchain); Python `dict` literals are modelled by association
lists with last-binding-wins lookup (matching dict-comprehension override
semantics); Python `float` fields that are only ever compared (never
arithmetically combined) are modelled as `ℚ`.
-/

namespace StealthEcom

/-- Python truthiness of an optional string: `None` and `""` are falsy. -/
def pyTruthy : Option String → Bool
  | none => false
  | some s => !(s == "")

/-- Lookup in a Python dict built by inserting the given bindings in order:
the LAST binding for a key wins (dict update semantics). -/
def pyDictGet (m : List (String × String)) (k : String) : Option String :=
  (m.reverse.find? (fun kv => kv.1 == k)).map (·.2)

/-- Python `dict.get(k, d)` with a default. -/
def pyDictGetD (m : List (String × String)) (k : String) (d : String) : String :=
  (pyDictGet m k).getD d

/-! ## Data model (`src/backend/src/data_models.py`) -/

/-- `Product` from `data_models.py`.  `price_usd` and `margin_percentage`
are Python floats used only for comparisons; modelled as `ℚ`. -/
structure Product where
  product_id : String
  product_name : String
  category : Option String := none
  description : Option String := none
  price_usd : Option ℚ := none
  currency_code : Option String := some "USD"
  margin_percentage : Option ℚ := none
  key_ingredients : List String := []
  tags : List String := []
  image_url : Option String := none
deriving DecidableEq, Repr

/-- `ParsedDocument` from `data_models.py`.  The uuid `default_factory` for
`id` is an input here: ids are always supplied by the caller in the code
paths under verification. -/
structure ParsedDocument where
  id : String
  source_type : String
  content : String
  metadata : List (String × String) := []
deriving DecidableEq, Repr

/-- `DocumentChunk` from `data_models.py`.  `chunk_id` is uuid-generated by
`default_factory` when not supplied; the chunker never reads it back, and
hydrated chunks always set it explicitly, so freshly generated ids are
modelled by the empty string. -/
structure DocumentChunk where
  chunk_id : String := ""
  document_id : String
  text_chunk : String
  source_type : String
  metadata : List (String × String) := []
deriving DecidableEq, Repr

/-- `ProductResult` from `data_models.py`. -/
structure ProductResult where
  product : Product
  justification : Option String := none
  supporting_reviews : List DocumentChunk := []
deriving DecidableEq, Repr

/-- `SearchResponse` from `data_models.py`. -/
structure SearchResponse where
  session_id : Option String := none
  results : Option (List ProductResult) := none
  rag_contexts : Option (List DocumentChunk) := none
  follow_up_questions : Option (List String) := none
  answer : Option String := none
  contextual_justification : Option String := none
deriving DecidableEq, Repr

/-! ## Chunker (`src/backend/src/rag_pipeline.py`) -/

/-- `TEXT_CHUNK_SIZE` from `rag_pipeline.py`. -/
def TEXT_CHUNK_SIZE : Nat := 512

/-- `TEXT_CHUNK_OVERLAP` from `rag_pipeline.py`. -/
def TEXT_CHUNK_OVERLAP : Nat := 50

/-- Fuel-indexed form of the `while start < len(text)` loop of
`chunk_parsed_documents`: emit `text[start : start+512]`, advance `start`
by `512 - 50`, stop when the new start reaches the length (the trailing
`if start >= len(text): break` coincides with the loop guard).  The fuel
only bounds the iteration count; `text.length - start` iterations always
suffice because each step advances `start` by at least one. -/
def chunkLoopFuel (text : List Char) : Nat → Nat → List (List Char)
  | 0, _ => []
  | fuel + 1, start =>
    if start < text.length then
      ((text.drop start).take TEXT_CHUNK_SIZE) ::
        chunkLoopFuel text fuel (start + (TEXT_CHUNK_SIZE - TEXT_CHUNK_OVERLAP))
    else []

/-- The chunking loop of `chunk_parsed_documents`, started at `start`. -/
def chunkLoop (text : List Char) (start : Nat) : List (List Char) :=
  chunkLoopFuel text (text.length - start) start

/-- The chunks contributed by one `ParsedDocument` inside
`chunk_parsed_documents`: each window becomes a `DocumentChunk` inheriting
the parent metadata updated with `original_doc_id` and `source_type`
(dict-update: the appended bindings win on lookup). -/
def docChunks (d : ParsedDocument) : List DocumentChunk :=
  (chunkLoop d.content.data 0).map (fun t =>
    { document_id := d.id
      text_chunk := String.mk t
      source_type := d.source_type
      metadata := d.metadata ++ [("original_doc_id", d.id), ("source_type", d.source_type)] })

/-- `chunk_parsed_documents` from `rag_pipeline.py`. -/
def chunk_parsed_documents (parsed_docs : List ParsedDocument) : List DocumentChunk :=
  parsed_docs.flatMap docChunks

/-! ## Catalog lookup (`src/api/routers/search.py` line 53)

`product_catalog_dict = {p.product_id: p for p in product_catalog_list}`:
a later product with the same id overrides an earlier one. -/

/-- Lookup in the catalog dict keyed by `product_id` (last binding wins). -/
def catalogLookup (catalog : List Product) (pid : String) : Option Product :=
  catalog.reverse.find? (fun p => p.product_id == pid)

/-! ## Validate & authoritative-merge (`search.py` lines 70-85) -/

/-- The validation/merge stage: keep a model-proposed result only when its
asserted product id resolves in the catalog dict, replacing the product by
the authoritative record (the guard `p_res_from_llm.product and ...` never
fails on the product part, a mandatory pydantic field). -/
def validateResults (catalog : List Product) (results : List ProductResult) :
    List ProductResult :=
  results.filterMap (fun r =>
    match catalogLookup catalog r.product.product_id with
    | some authoritative =>
        some { product := authoritative
               justification := r.justification
               supporting_reviews := r.supporting_reviews }
    | none => none)

/-! ## Re-rank (`search.py` lines 87-95) -/

/-- Sort key used by `sort(key=lambda p_res: p_res.product.margin_percentage,
reverse=True)`; only ever applied to results whose margin is present, so the
default is never observed. -/
def marginKey (r : ProductResult) : ℚ := r.product.margin_percentage.getD 0

/-- The re-rank stage: partition by presence of `margin_percentage`
(`not p_res.product` is always false: the field is mandatory), stable-sort
the margin-bearing group descending, and concatenate; when no result has a
margin the list is left untouched. -/
def rerankResults (results : List ProductResult) : List ProductResult :=
  let withM := results.filter (fun r => r.product.margin_percentage.isSome)
  let withoutM := results.filter (fun r => r.product.margin_percentage.isNone)
  if withM.isEmpty then results
  else (withM.mergeSort (fun a b => decide (marginKey b ≤ marginKey a))) ++ withoutM

/-! ## Evidence reconciliation (`search.py` lines 98-145) -/

/-- Is the list `pat` an initial segment of `s`? (helper for Python
`str.count`). -/
def listStarts : List Char → List Char → Bool
  | [], _ => true
  | _ :: _, [] => false
  | p :: ps, c :: cs => p == c && listStarts ps cs

/-- Fuel-indexed scan for Python `s.count(pat)` with non-empty `pat`:
each step either moves one character right or, on a match, past the whole
occurrence, so `s.length` steps always suffice. -/
def pyCountSubFuel (pat : List Char) : Nat → List Char → Nat
  | 0, _ => 0
  | fuel + 1, s =>
    match s with
    | [] => 0
    | c :: rest =>
      if listStarts pat (c :: rest) then
        1 + pyCountSubFuel pat fuel (rest.drop (pat.length - 1))
      else pyCountSubFuel pat fuel rest

/-- Python `s.count(pat)`: number of non-overlapping occurrences of `pat`
in `s`, scanning left to right (for empty `pat` Python returns
`len(s) + 1`). -/
def pyCountSub (s pat : List Char) : Nat :=
  match pat with
  | [] => s.length + 1
  | _ :: _ => pyCountSubFuel pat s.length s

/-- Python whitespace characters recognised by `str.strip()` (ASCII set;
the rating strings under scrutiny contain no exotic whitespace). -/
def isPySpace (c : Char) : Bool :=
  c == ' ' || c == '\t' || c == '\n' || c == '\r' ||
    c == Char.ofNat 11 || c == Char.ofNat 12

/-- Python `str.strip()`. -/
def pyStrip (s : List Char) : List Char :=
  ((s.dropWhile isPySpace).reverse.dropWhile isPySpace).reverse

/-- The verbatim byte sequence `'â˜…'` counted by line 128 of `search.py`
(a mojibake rendering of the star glyph, three characters long). -/
def starGlyph : List Char := ['â', '˜', '…']

/-- `rating_str = context_chunk.metadata.get("rating", "").strip()` followed
by `rating_str.count('â˜…')`. -/
def starCount (c : DocumentChunk) : Nat :=
  pyCountSub (pyStrip (pyDictGetD c.metadata "rating" "").data) starGlyph

/-- `product_name_to_match`: the lowercased product name, or `""` when the
name is the empty string (the `hasattr` guard always succeeds). -/
def productNameToMatch (p : Product) : String :=
  if !(p.product_name == "") then p.product_name.toLower else ""

/-- The product-match test of lines 117-124: a truthy metadata
`product_id` must equal the product's id; only when the metadata id is
falsy does the case-insensitive name comparison apply (`isinstance` on the
raw name always holds for string-valued metadata). -/
def matchesProduct (p : Product) (c : DocumentChunk) : Bool :=
  let metaId := pyDictGet c.metadata "product_id"
  let metaName := (pyDictGetD c.metadata "product_name" "").toLower
  if pyTruthy metaId then metaId.getD "" == p.product_id
  else (!(metaName == "")) && (metaName == productNameToMatch p)

/-- One iteration of the inner `for context_chunk in
all_relevant_contexts_from_llm` loop for a fixed product: state is the
product's current supporting-review list (whose ids mirror
`existing_review_ids_for_this_product`) and the `moved_review_chunk_ids`
accumulator. -/
def promoteStep (p : Product) (st : List DocumentChunk × List String)
    (c : DocumentChunk) : List DocumentChunk × List String :=
  if st.2.contains c.chunk_id then st
  else if (st.1.map (·.chunk_id)).contains c.chunk_id then st
  else if c.source_type == "review" && matchesProduct p c &&
      decide (3 ≤ starCount c) then
    (st.1 ++ [c], st.2 ++ [c.chunk_id])
  else st

/-- One iteration of the outer `for product_res in llm_response.results`
loop: fold `promoteStep` over the whole context list starting from the
product's current supporting reviews and the accumulated moved set. -/
def reconcileStep (contexts : List DocumentChunk)
    (acc : List ProductResult × List String) (r : ProductResult) :
    List ProductResult × List String :=
  let inner := contexts.foldl (promoteStep r.product) (r.supporting_reviews, acc.2)
  (acc.1 ++ [{ r with supporting_reviews := inner.1 }], inner.2)

/-- The outer `for product_res in llm_response.results` loop: thread the
moved-id set through the products.  Returns the updated results and the
final `moved_review_chunk_ids`. -/
def reconcileProducts (contexts : List DocumentChunk)
    (results : List ProductResult) : List ProductResult × List String :=
  results.foldl (reconcileStep contexts) ([], [])

/-- `final_top_level_contexts`: the used chunks whose id was never moved
into a product (lines 134-144; the no-results branch runs the same filter
with an empty moved set). -/
def finalPool (contexts : List DocumentChunk) (moved : List String) :
    List DocumentChunk :=
  contexts.filter (fun c => !(moved.contains c.chunk_id))

/-! ## Hydration (`src/llm_handler.py` lines 198-274) -/

/-- One raw retrieval dict produced by `query_vector_store`; missing or
`None` fields surface as the falsy defaults checked by the hydration
code. -/
structure RawChunk where
  id : String := ""
  text_chunk : String := ""
  metadata : List (String × String) := []
deriving DecidableEq, Repr

/-- `raw_dict_map = {raw_dict.get('id'): raw_dict for raw_dict in
rag_contexts_raw_dicts if raw_dict.get('id')}` (truthy ids only, last
binding wins). -/
def rawDictGet (raws : List RawChunk) (cid : String) : Option RawChunk :=
  (raws.filter (fun r => !(r.id == ""))).reverse.find? (fun r => r.id == cid)

/-- Hydrate one used chunk id (lines 205-232): resolve it in the retrieval
batch and require `all([chunk_id, original_doc_id, source_type,
text_chunk])` to be truthy. -/
def hydrateChunk (raws : List RawChunk) (cid : String) : Option DocumentChunk :=
  match rawDictGet raws cid with
  | none => none
  | some raw =>
    let docId := pyDictGet raw.metadata "original_doc_id"
    let srcTy := pyDictGet raw.metadata "source_type"
    if (!(cid == "")) && pyTruthy docId && pyTruthy srcTy &&
        (!(raw.text_chunk == "")) then
      some { chunk_id := cid
             document_id := docId.getD ""
             source_type := srcTy.getD ""
             text_chunk := raw.text_chunk
             metadata := raw.metadata }
    else none

/-- Hydrate one supporting-review chunk id (lines 244-273): like
`hydrateChunk` but additionally dropping chunks whose `source_type` is not
`review`. -/
def hydrateReview (raws : List RawChunk) (cid : String) : Option DocumentChunk :=
  match hydrateChunk raws cid with
  | none => none
  | some c => if c.source_type == "review" then some c else none

/-- One element of the model's `results` JSON array (the pydantic-parsed
product plus the raw `supporting_review_chunk_ids` read back from the raw
JSON dict). -/
structure LLMResultItem where
  product : Product
  justification : Option String := none
  supporting_review_chunk_ids : List String := []
deriving DecidableEq, Repr

/-- The single JSON object the model is contracted to return. -/
structure LLMJson where
  session_id : Option String := none
  results : Option (List LLMResultItem) := none
  used_rag_context_ids : List String := []
  follow_up_questions : Option (List String) := none
  answer : Option String := none
  contextual_justification : Option String := none
deriving DecidableEq, Repr

/-- Lines 276-281: a falsy model-returned session id is replaced by the
caller's session id when truthy, otherwise by a fresh uuid (`freshId`). -/
def resolveSessionId (jsid sidIn : Option String) (freshId : String) :
    Option String :=
  if pyTruthy jsid then jsid
  else if pyTruthy sidIn then sidIn
  else some freshId

/-- One pydantic-parsed result item with its supporting reviews hydrated
(lines 236-274): the reviews are the hydrations of the item's raw
`supporting_review_chunk_ids`, in the model's order. -/
def llmItemToResult (raws : List RawChunk) (item : LLMResultItem) : ProductResult :=
  { product := item.product
    justification := item.justification
    supporting_reviews :=
      item.supporting_review_chunk_ids.filterMap (hydrateReview raws) }

/-- The successful-attempt body of `get_conversational_response` after JSON
parsing: hydrate `used_rag_context_ids` in the model's citation order into
`rag_contexts`, hydrate each result's `supporting_review_chunk_ids`,
resolve the session id and normalise `follow_up_questions` (the
`isinstance(.., str)` branch is unreachable after pydantic validation). -/
def llmSuccessResponse (raws : List RawChunk) (sidIn : Option String)
    (freshId : String) (j : LLMJson) : SearchResponse :=
  { session_id := resolveSessionId j.session_id sidIn freshId
    results := j.results.map (fun items => items.map (llmItemToResult raws))
    rag_contexts := some (j.used_rag_context_ids.filterMap (hydrateChunk raws))
    follow_up_questions := some (j.follow_up_questions.getD [])
    answer := j.answer
    contextual_justification := j.contextual_justification }

/-! ## The post-LLM stages of `conversational_search` (`search.py`
lines 70-145) -/

/-- The validate-and-merge stage guarded by its `if llm_response.results:`
truthiness check (`None` and `[]` are both skipped unchanged). -/
def stageValidate (catalog : List Product) :
    Option (List ProductResult) → Option (List ProductResult)
  | none => none
  | some l => if l.isEmpty then some l else some (validateResults catalog l)

/-- The re-rank stage guarded by its `if llm_response.results:` check. -/
def stageRerank : Option (List ProductResult) → Option (List ProductResult)
  | none => none
  | some l => if l.isEmpty then some l else some (rerankResults l)

/-- Validate & merge, re-rank and evidence reconciliation applied to the
LLM response.  The reconciliation else-branch (no recommended products)
filters the context list against the then-empty moved set, so both
branches are the `finalPool` filter. -/
def searchPostProcess (catalog : List Product) (resp : SearchResponse) :
    SearchResponse :=
  let r2 := stageRerank (stageValidate catalog resp.results)
  let contexts := resp.rag_contexts.getD []
  let recon := reconcileProducts contexts (r2.getD [])
  match r2 with
  | none => { resp with results := none
                        rag_contexts := some (finalPool contexts recon.2) }
  | some _ => { resp with results := some recon.1
                          rag_contexts := some (finalPool contexts recon.2) }

/-- The response computed by `conversational_search` on the LLM success
path, from the catalog, the retrieval batch and the model's JSON. -/
def conversational_search_core (catalog : List Product) (raws : List RawChunk)
    (sidIn : Option String) (freshId : String) (j : LLMJson) : SearchResponse :=
  searchPostProcess catalog (llmSuccessResponse raws sidIn freshId j)

/-! ## Session store update (`search.py` lines 147-171) -/

/-- One conversation turn `{role: ..., parts: [...]}`. -/
structure Turn where
  role : String
  parts : List String
deriving DecidableEq, Repr

/-- `MAX_HISTORY_TURNS` from `search.py`. -/
def MAX_HISTORY_TURNS : Nat := 10

/-- Python `str.strip()` on a `String`. -/
def pyStripStr (s : String) : String := String.mk (pyStrip s.data)

/-- `response_summary_for_history`: answer, contextual justification and
rendered follow-up questions in that order when truthy, space-joined,
falling back to `"Okay."`. -/
def responseSummary (resp : SearchResponse) : String :=
  let parts :=
    (if pyTruthy resp.answer then [resp.answer.getD ""] else []) ++
    (if pyTruthy resp.contextual_justification then
        [resp.contextual_justification.getD ""] else []) ++
    (match resp.follow_up_questions with
     | some qs =>
        if 0 < qs.length then
          ["Follow-up questions: " ++ String.intercalate "; " qs]
        else []
     | none => [])
  let filled := if parts.isEmpty then ["Okay."] else parts
  String.intercalate " " filled

/-- The user turn appended for the query. -/
def userTurn (q : String) : Turn := { role := "user", parts := [q] }

/-- The model turn appended for the response digest (stripped). -/
def modelTurn (summary : String) : Turn :=
  { role := "model", parts := [pyStripStr summary] }

/-- Lines 169-171: keep only the most recent `MAX_HISTORY_TURNS * 2`
entries (`hist[-(MAX_HISTORY_TURNS * 2):]`). -/
def truncateHistory (l : List Turn) : List Turn :=
  if MAX_HISTORY_TURNS * 2 < l.length then l.drop (l.length - MAX_HISTORY_TURNS * 2)
  else l

/-- The session-store update of lines 147-171: the history stored under
the response's session id (the dict `_user_conversations`, modelled as a
total map with `[]` for absent keys) gains the user turn and the model
digest turn and is truncated; every other session is untouched. -/
def updateSessions (store : Option String → List Turn) (resp : SearchResponse)
    (query : String) : Option String → List Turn :=
  fun s =>
    if s = resp.session_id then
      truncateHistory (store resp.session_id ++
        [userTurn query, modelTurn (responseSummary resp)])
    else store s

/-! ## Retry/degrade control flow (`llm_handler.py` lines 180-364) -/

/-- The failure categories distinguished by the `except` clauses of the
retry loop; `valueErr true` is a `ValueError` whose message contains
`"LLM output not in expected JSON format"` (the marker error raised at
line 191), `valueErr false` any other `ValueError`. -/
inductive LLMFailure where
  | jsonDecode
  | validationErr
  | valueErr (markerMsg : Bool)
  | resourceExhausted
  | serverErr
  | googleAPIErr
  | otherErr
deriving DecidableEq, Repr

/-- The category-specific degraded message and justification chosen at
lines 336-357 from the last recorded failure. -/
def fallbackAnswer : Option LLMFailure → String × String
  | some LLMFailure.jsonDecode =>
      ("Sorry, I had trouble processing that. Could you try rephrasing?",
       "LLM response parsing error after multiple attempts.")
  | some LLMFailure.validationErr =>
      ("Sorry, I encountered an issue with the response structure. Please try again.",
       "LLM response validation error after multiple attempts.")
  | some (LLMFailure.valueErr true) =>
      ("Sorry, I couldn\x27t generate a structured response. Please try again.",
       "LLM output format error after multiple attempts.")
  | some LLMFailure.resourceExhausted =>
      ("I\x27m a bit overwhelmed at the moment. Please try again in a few moments.",
       "Rate limit reached. Please try again later.")
  | some LLMFailure.serverErr =>
      ("There seems to be a temporary issue with the AI service. Please try again shortly.",
       "AI service unavailable or server error.")
  | some LLMFailure.googleAPIErr =>
      ("An issue occurred while communicating with the AI service. Please try again.",
       "AI service communication error.")
  | _ =>
      ("Sorry, I\x27m having trouble connecting to my brain right now. Please try again later.",
       "LLM API call failed after multiple attempts.")

/-- The degraded `SearchResponse` built at lines 359-364. -/
def cannedResponse (sid : Option String) (msg : String × String) : SearchResponse :=
  { session_id := sid
    answer := some msg.1
    contextual_justification := some msg.2
    results := some []
    rag_contexts := some []
    follow_up_questions := some [] }

/-- The observable outcome of one `chat.send_message_async` attempt plus
parsing: success (carrying the fully processed response), one of the two
non-retriable policy exceptions, or a retriable failure category. -/
inductive AttemptOutcome where
  | ok (r : SearchResponse)
  | blockedPrompt
  | stopCandidate
  | fail (e : LLMFailure)
deriving Repr

/-- `max_retries` from `get_conversational_response`. -/
def max_retries : Nat := 3

/-- The `for attempt in range(max_retries)` loop of
`get_conversational_response`: a success returns immediately, the two
policy exceptions return their fixed responses without retrying, a
retriable failure records itself as `last_exception` and continues; an
exhausted list yields the canned degraded response selected by the last
failure. -/
def runLLMAttempts (sid : Option String) :
    List AttemptOutcome → Option LLMFailure → SearchResponse
  | [], last => cannedResponse sid (fallbackAnswer last)
  | AttemptOutcome.ok r :: _, _ => r
  | AttemptOutcome.blockedPrompt :: _, _ =>
      { session_id := sid
        answer := some "The request could not be processed due to content policy."
        contextual_justification := some "Content policy violation."
        results := some []
        rag_contexts := some []
        follow_up_questions := some [] }
  | AttemptOutcome.stopCandidate :: _, _ =>
      { session_id := sid
        answer := some "The response generation was stopped. This might be due to safety settings or other reasons."
        contextual_justification := some "Response generation incomplete."
        results := some []
        rag_contexts := some []
        follow_up_questions := some [] }
  | AttemptOutcome.fail e :: rest, _ => runLLMAttempts sid rest (some e)

/-- `get_conversational_response` as a function of the per-attempt
outcomes (the API-key guard and prompt construction do not affect the
retry/degrade semantics). -/
def get_conversational_response (sid : Option String)
    (outcomes : List AttemptOutcome) : SearchResponse :=
  runLLMAttempts sid outcomes none

/-! ## Reconstruction vocabulary for the chunk-overlap claim -/

/-- Remove the first `TEXT_CHUNK_OVERLAP` characters of every chunk text
except the first. -/
def removeOverlapTexts : List String → List String
  | [] => []
  | c :: cs => c :: cs.map (fun s => String.mk (s.data.drop TEXT_CHUNK_OVERLAP))

/-- Concatenate a list of chunk texts. -/
def joinChunkTexts (l : List String) : String :=
  String.mk ((l.map String.data).flatten)

/-! ## Concrete instances used by witnesses and counterexamples -/

/-- A 500-character document: shorter than `TEXT_CHUNK_SIZE` yet longer
than the 462-character window stride. -/
def c5Doc : ParsedDocument :=
  { id := "doc-500", source_type := "brand_info"
    content := String.mk (List.replicate 500 'a') }

/-- A short document for the count witness. -/
def c5wDoc : ParsedDocument :=
  { id := "doc-abc", source_type := "brand_info", content := "abc" }

/-- A short document for the reconstruction witness. -/
def c6Doc : ParsedDocument :=
  { id := "doc-hello", source_type := "brand_info", content := "hello world" }

/-- An empty-content document. -/
def c10Doc : ParsedDocument :=
  { id := "doc-empty", source_type := "brand_info", content := "" }

/-- Catalog products for the reconciliation scenarios. -/
def prodA : Product := { product_id := "PA", product_name := "Alpha" }

def prodB : Product := { product_id := "PB", product_name := "Beta" }

def prodC : Product := { product_id := "PC", product_name := "Gamma" }

/-- A rating string holding four star glyphs. -/
def fourStars : String :=
  String.mk (starGlyph ++ starGlyph ++ starGlyph ++ starGlyph)

/-- A rating string holding three star glyphs. -/
def threeStars : String :=
  String.mk (starGlyph ++ starGlyph ++ starGlyph)

/-- Raw review chunk cited both as a supporting review and as a used
context (C2 scenario). -/
def c2Raw : RawChunk :=
  { id := "cX", text_chunk := "great serum"
    metadata := [("original_doc_id", "d1"), ("source_type", "review"),
                 ("product_id", "PA"), ("rating", "")] }

/-- Model JSON citing `cX` in both lists for product `PA`. -/
def c2Json : LLMJson :=
  { results := some [{ product := { product_id := "PA", product_name := "ModelAlpha" }
                       supporting_review_chunk_ids := ["cX"] }]
    used_rag_context_ids := ["cX"] }

/-- Raw review chunk for the disjoint-citation witness. -/
def c2wRaw : RawChunk :=
  { id := "cY", text_chunk := "lovely"
    metadata := [("original_doc_id", "d2"), ("source_type", "review"),
                 ("product_id", "PA"), ("rating", "")] }

/-- Model JSON whose supporting-review citations are disjoint from
`used_rag_context_ids`. -/
def c2wJson : LLMJson :=
  { results := some [{ product := { product_id := "PA", product_name := "ModelAlpha" }
                       supporting_review_chunk_ids := [] }]
    used_rag_context_ids := ["cY"] }

/-- Margin-bearing results listed in ascending margin order, plus one
margin-less result, for the re-rank witness. -/
def c3Results : List ProductResult :=
  [{ product := { product_id := "P1", product_name := "One"
                  margin_percentage := some 30 } },
   { product := { product_id := "P2", product_name := "Two"
                  margin_percentage := some 50 } },
   { product := { product_id := "P3", product_name := "Three" } }]

/-- A hydrated review chunk already claimed by product `PA` yet matching
product `PB` with four stars (C7 scenario). -/
def c7X : DocumentChunk :=
  { chunk_id := "cX7", document_id := "d1", text_chunk := "nice"
    source_type := "review"
    metadata := [("product_id", "PB"), ("rating", fourStars)] }

/-- Results where the first product already claims `c7X` as a supporting
review and the second matches it. -/
def c7Results : List ProductResult :=
  [{ product := prodA, supporting_reviews := [c7X] },
   { product := prodB, supporting_reviews := [] }]

/-- A hydrated three-star review chunk matching product `PC`, claimed by
nobody (C7 completeness witness). -/
def c7Y : DocumentChunk :=
  { chunk_id := "cY7", document_id := "d2", text_chunk := "good"
    source_type := "review"
    metadata := [("product_id", "PC"), ("rating", threeStars)] }

/-- A single result with no pre-claimed reviews. -/
def c7wResults : List ProductResult :=
  [{ product := prodC, supporting_reviews := [] }]

/-- First raw chunk of the retrieval batch (C8 scenario). -/
def c8RawA : RawChunk :=
  { id := "cA", text_chunk := "about the brand"
    metadata := [("original_doc_id", "dA"), ("source_type", "brand_info")] }

/-- Second raw chunk of the retrieval batch (C8 scenario). -/
def c8RawB : RawChunk :=
  { id := "cB", text_chunk := "philosophy"
    metadata := [("original_doc_id", "dB"), ("source_type", "brand_info")] }

/-- Model JSON citing the retrieval batch in reversed order. -/
def c8Json : LLMJson :=
  { used_rag_context_ids := ["cB", "cA"] }

/-- Response used by the session-store witness. -/
def c9Resp : SearchResponse :=
  { session_id := some "s9", answer := some "hi there" }

/-- Model JSON recommending product `PA` with no citations (C1 witness). -/
def c1Json : LLMJson :=
  { results := some [{ product := { product_id := "PA", product_name := "Guess" } }]
    used_rag_context_ids := [] }

/-! # Theorems

Helper lemmas come first; the claim theorems, their witnesses and the
counterexamples are at the end of each themed block. -/

/-- Unfolding the fuel-indexed loop at successor fuel. -/
theorem chunkLoopFuel_succ (text : List Char) (fuel start : Nat) :
    chunkLoopFuel text (fuel + 1) start =
      if start < text.length then
        ((text.drop start).take 512) :: chunkLoopFuel text fuel (start + 462)
      else [] := rfl

/-- Running the chunk loop with any fuel at least `text.length - start`
gives the same list: every iteration advances `start` by at least one. -/
theorem chunkLoopFuel_congr (text : List Char) :
    ∀ (f₁ f₂ start : Nat), text.length - start ≤ f₁ → text.length - start ≤ f₂ →
      chunkLoopFuel text f₁ start = chunkLoopFuel text f₂ start := by
  intro f₁
  induction f₁ with
  | zero =>
    intro f₂ start h1 h2
    cases f₂ with
    | zero => rfl
    | succ f₂ =>
      rw [chunkLoopFuel_succ, if_neg (by omega)]
      rfl
  | succ f₁ ih =>
    intro f₂ start h1 h2
    cases f₂ with
    | zero =>
      rw [chunkLoopFuel_succ, if_neg (by omega)]
      rfl
    | succ f₂ =>
      rw [chunkLoopFuel_succ, chunkLoopFuel_succ]
      by_cases h : start < text.length
      · rw [if_pos h, if_pos h]
        exact congrArg _ (ih f₂ (start + 462) (by omega) (by omega))
      · rw [if_neg h, if_neg h]

/-- The loop unfolds one window at a time (numeral form; `512 = W`,
`462 = W - O` definitionally). -/
theorem chunkLoop_eq (text : List Char) (start : Nat) :
    chunkLoop text start =
      if start < text.length then
        ((text.drop start).take 512) :: chunkLoop text (start + 462)
      else [] := by
  show chunkLoopFuel text (text.length - start) start = _
  by_cases h : start < text.length
  · rw [if_pos h]
    have hf : text.length - start = (text.length - start - 1) + 1 := by omega
    rw [hf, chunkLoopFuel_succ, if_pos h]
    exact congrArg _ (chunkLoopFuel_congr text _ _ _ (by omega) (by omega))
  · rw [if_neg h]
    have hf : text.length - start = 0 := by omega
    rw [hf]
    rfl

/-- Number of windows the loop emits from `start`: the ceiling of
`(text.length - start) / 462`. -/
theorem chunkLoop_length (text : List Char) (start : Nat)
    (h : start < text.length) :
    (chunkLoop text start).length = (text.length - start + 461) / 462 := by
  rw [chunkLoop_eq, if_pos h]
  by_cases h2 : start + 462 < text.length
  · have ih := chunkLoop_length text (start + 462) h2
    rw [List.length_cons, ih]
    omega
  · have hnil : chunkLoop text (start + 462) = [] := by
      rw [chunkLoop_eq, if_neg h2]
    rw [hnil]
    simp only [List.length_cons, List.length_nil]
    omega
termination_by text.length - start
decreasing_by omega

/-- Dropping the leading overlap from every window emitted from `start`
and concatenating recovers the suffix of the text from `start + 50`. -/
theorem chunkLoop_overlap_flatten (text : List Char) (start : Nat)
    (h : start < text.length) :
    ((chunkLoop text start).map (List.drop 50)).flatten =
      text.drop (start + 50) := by
  rw [chunkLoop_eq, if_pos h]
  by_cases h2 : start + 462 < text.length
  · have ih := chunkLoop_overlap_flatten text (start + 462) h2
    simp only [List.map_cons, List.flatten_cons, ih]
    rw [List.drop_take, List.drop_drop]
    have h1 : start + 462 + 50 = (start + 50) + 462 := by omega
    have h2' : (512 - 50 : Nat) = 462 := by omega
    rw [h1, h2']
    rw [show List.drop (start + 50 + 462) text =
          List.drop 462 (List.drop (start + 50) text) from
        (List.drop_drop 462 (start + 50) text).symm]
    exact List.take_append_drop _ _
  · have hnil : chunkLoop text (start + 462) = [] := by
      rw [chunkLoop_eq, if_neg h2]
    simp only [hnil, List.map_cons, List.map_nil, List.flatten_cons, List.flatten_nil,
      List.append_nil]
    have htake : (text.drop start).take 512 = text.drop start := by
      refine List.take_of_length_le ?_
      simp only [List.length_drop]
      omega
    rw [htake, List.drop_drop]
termination_by text.length - start
decreasing_by omega

/-- The `i`-th window emitted from `start` is the slice of the text at
offset `start + 462 * i`. -/
theorem chunkLoop_getElem? (text : List Char) :
    ∀ (i start : Nat) (c : List Char), (chunkLoop text start)[i]? = some c →
      c = (text.drop (start + 462 * i)).take 512 := by
  intro i
  induction i with
  | zero =>
    intro start c hc
    rw [chunkLoop_eq] at hc
    by_cases h : start < text.length
    · rw [if_pos h] at hc
      simp only [List.getElem?_cons_zero, Option.some.injEq] at hc
      rw [← hc, show start + 462 * 0 = start from by omega]
    · rw [if_neg h] at hc
      simp at hc
  | succ i ih =>
    intro start c hc
    rw [chunkLoop_eq] at hc
    by_cases h : start < text.length
    · rw [if_pos h] at hc
      simp only [List.getElem?_cons_succ] at hc
      have := ih (start + 462) c hc
      have harith : start + 462 + 462 * i = start + 462 * (i + 1) := by omega
      rw [this, harith]
    · rw [if_neg h] at hc
      simp at hc

/-- `chunk_parsed_documents` on a single document is that document's
chunk list. -/
theorem chunk_parsed_documents_singleton (d : ParsedDocument) :
    chunk_parsed_documents [d] = docChunks d := by
  simp [chunk_parsed_documents]

/-- The texts of a document's chunks are the loop windows. -/
theorem docChunks_texts (d : ParsedDocument) :
    (docChunks d).map (·.text_chunk) = (chunkLoop d.content.data 0).map String.mk := by
  rw [docChunks, List.map_map]
  rfl

/-- Rebuilding a string from its character list. -/
theorem stringMk_data (s : String) : String.mk s.data = s := by
  cases s
  rfl

/-- The character list of a rebuilt string. -/
theorem data_stringMk (l : List Char) : (String.mk l).data = l := rfl

/-- Unfolding `removeOverlapTexts` on a non-empty list. -/
theorem removeOverlapTexts_cons (c : String) (cs : List String) :
    removeOverlapTexts (c :: cs) =
      c :: cs.map (fun s => String.mk (s.data.drop TEXT_CHUNK_OVERLAP)) := rfl

/-- Unfolding `joinChunkTexts` on a non-empty list. -/
theorem joinChunkTexts_cons (c : String) (cs : List String) :
    joinChunkTexts (c :: cs) =
      String.mk (c.data ++ (cs.map String.data).flatten) := rfl

/-- C5 (amended): for every document with non-empty content of length `L`,
the number of chunks produced by `chunk_parsed_documents` equals
`ceil(L / (W - O))` with `W = 512`, `O = 50` — not `ceil((L-O)/(W-O))`,
and documents with `W - O < L < W` yield two chunks, not one. -/
theorem claim_C5_chunk_count (d : ParsedDocument) (h : 0 < d.content.length) :
    (chunk_parsed_documents [d]).length =
      (d.content.length + (TEXT_CHUNK_SIZE - TEXT_CHUNK_OVERLAP) - 1) /
        (TEXT_CHUNK_SIZE - TEXT_CHUNK_OVERLAP) := by
  rw [chunk_parsed_documents_singleton, docChunks, List.length_map]
  have hL : d.content.length = d.content.data.length := rfl
  rw [hL] at h
  rw [chunkLoop_length d.content.data 0 (by omega)]
  show (d.content.data.length - 0 + 461) / 462 = (d.content.length + 462 - 1) / 462
  rw [← hL]
  omega

/-- C5 witness at a three-character document. -/
theorem claim_C5_chunk_count_witness :
    0 < c5wDoc.content.length ∧
      (chunk_parsed_documents [c5wDoc]).length =
        (c5wDoc.content.length + (TEXT_CHUNK_SIZE - TEXT_CHUNK_OVERLAP) - 1) /
          (TEXT_CHUNK_SIZE - TEXT_CHUNK_OVERLAP) :=
  ⟨by decide, claim_C5_chunk_count c5wDoc (by decide)⟩

/-- C5 counterexample: a 500-character document is shorter than
`TEXT_CHUNK_SIZE = 512` yet produces two chunks, not one (the loop
guard tests the next start against the length, not the window end). -/
theorem claim_C5_counterexample :
    c5Doc.content.length < TEXT_CHUNK_SIZE ∧
      (chunk_parsed_documents [c5Doc]).length = 2 := by
  have hdata : c5Doc.content.data = List.replicate 500 'a' := rfl
  have hlen : c5Doc.content.length = 500 := by
    show c5Doc.content.data.length = 500
    rw [hdata, List.length_replicate]
  constructor
  · rw [hlen]
    show (500 : Nat) < 512
    omega
  · rw [chunk_parsed_documents_singleton, docChunks, List.length_map,
      chunkLoop_length c5Doc.content.data 0
        (by rw [show c5Doc.content.data.length = 500 from hlen ▸ rfl]; omega)]
    rw [show c5Doc.content.data.length = 500 from hlen ▸ rfl]

/-- C6: concatenating a document's chunk texts with the 50-character
overlap removed from every chunk but the first reconstructs the content
exactly, and each chunk text is the content slice at its window
position. -/
theorem claim_C6_reconstruction (d : ParsedDocument) (h : d.content ≠ "") :
    joinChunkTexts (removeOverlapTexts
        ((chunk_parsed_documents [d]).map (·.text_chunk))) = d.content ∧
    ∀ (i : Nat) (c : DocumentChunk), (chunk_parsed_documents [d])[i]? = some c →
      c.text_chunk =
        String.mk ((d.content.data.drop ((TEXT_CHUNK_SIZE - TEXT_CHUNK_OVERLAP) * i)).take
          TEXT_CHUNK_SIZE) := by
  have hlen : 0 < d.content.data.length := by
    rcases d with ⟨id, st, content, md⟩
    cases content with
    | mk data =>
      cases data with
      | nil => simp at h
      | cons a l => simp
  constructor
  · rw [chunk_parsed_documents_singleton, docChunks_texts]
    have he := chunkLoop_eq d.content.data 0
    rw [if_pos (by omega), List.drop_zero] at he
    rw [he, List.map_cons, removeOverlapTexts_cons, joinChunkTexts_cons, data_stringMk]
    have hmap : ((List.map String.mk (chunkLoop d.content.data 462)).map
        (fun s => String.mk (s.data.drop TEXT_CHUNK_OVERLAP))).map String.data =
        (chunkLoop d.content.data 462).map (List.drop 50) := by
      rw [List.map_map, List.map_map]
      rfl
    rw [hmap]
    by_cases h2 : 462 < d.content.data.length
    · rw [chunkLoop_overlap_flatten d.content.data 462 h2]
      rw [show (462 + 50 : Nat) = 512 from rfl]
      rw [List.take_append_drop, stringMk_data]
    · have hnil : chunkLoop d.content.data 462 = [] := by
        rw [chunkLoop_eq, if_neg h2]
      rw [hnil]
      simp only [List.map_nil, List.flatten_nil, List.append_nil]
      rw [List.take_of_length_le (by omega), stringMk_data]
  · intro i c hc
    rw [chunk_parsed_documents_singleton, docChunks] at hc
    rw [List.getElem?_map] at hc
    cases ht : (chunkLoop d.content.data 0)[i]? with
    | none =>
      rw [ht] at hc
      exact Option.noConfusion hc
    | some t =>
      rw [ht, Option.map_some'] at hc
      rw [Option.some.injEq] at hc
      have hti := chunkLoop_getElem? d.content.data i 0 t ht
      have hz : (0 : Nat) + 462 * i = 462 * i := by omega
      rw [← hc]
      show String.mk t = _
      rw [hti, hz]
      rfl

/-- C6 witness at an eleven-character document. -/
theorem claim_C6_reconstruction_witness :
    c6Doc.content ≠ "" ∧
      joinChunkTexts (removeOverlapTexts
        ((chunk_parsed_documents [c6Doc]).map (·.text_chunk))) = c6Doc.content :=
  ⟨by decide, (claim_C6_reconstruction c6Doc (by decide)).1⟩

/-- C10: a document whose content is the empty string contributes no
chunks at all. -/
theorem claim_C10_empty_content (d : ParsedDocument) (h : d.content = "") :
    chunk_parsed_documents [d] = [] ∧
      ∀ docs : List ParsedDocument,
        chunk_parsed_documents (d :: docs) = chunk_parsed_documents docs := by
  have hd : docChunks d = [] := by
    rw [docChunks]
    have hdata : d.content.data = [] := by rw [h]
    rw [hdata]
    rfl
  refine ⟨?_, ?_⟩
  · rw [chunk_parsed_documents_singleton, hd]
  · intro docs
    show (d :: docs).flatMap docChunks = docs.flatMap docChunks
    rw [List.flatMap_cons, hd, List.nil_append]

/-- C10 witness at a concrete empty document. -/
theorem claim_C10_empty_content_witness :
    c10Doc.content = "" ∧ chunk_parsed_documents [c10Doc] = [] :=
  ⟨rfl, (claim_C10_empty_content c10Doc rfl).1⟩

/-- C4: exhausting the three generative attempts yields the canned
degraded response selected by the category of the last failure; in
particular three consecutive JSON-decode failures yield the parse-error
message with an empty results list. -/
theorem claim_C4_retry_degrade (sid : Option String) (e₁ e₂ e₃ : LLMFailure) :
    max_retries = 3 ∧
    get_conversational_response sid
        [AttemptOutcome.fail e₁, AttemptOutcome.fail e₂, AttemptOutcome.fail e₃] =
      cannedResponse sid (fallbackAnswer (some e₃)) ∧
    get_conversational_response sid
        (List.replicate max_retries (AttemptOutcome.fail LLMFailure.jsonDecode)) =
      { session_id := sid
        results := some []
        rag_contexts := some []
        follow_up_questions := some []
        answer := some "Sorry, I had trouble processing that. Could you try rephrasing?"
        contextual_justification :=
          some "LLM response parsing error after multiple attempts." } :=
  ⟨rfl, rfl, rfl⟩

/-- Truncation always equals dropping from the front down to the bound. -/
theorem truncateHistory_drop (l : List Turn) :
    truncateHistory l = l.drop (l.length - MAX_HISTORY_TURNS * 2) := by
  rw [truncateHistory]
  by_cases h : MAX_HISTORY_TURNS * 2 < l.length
  · rw [if_pos h]
  · rw [if_neg h]
    have h20 : (MAX_HISTORY_TURNS * 2 : Nat) = 20 := rfl
    rw [show l.length - MAX_HISTORY_TURNS * 2 = 0 from by omega]
    rfl

/-- C9: after a completed request every stored session history holds at
most `2 × MAX_HISTORY_TURNS = 20` turns; the updated session gains exactly
the user turn and the model-digest turn before truncation, truncation
drops the oldest turns first, and no other session changes. -/
theorem claim_C9_session_bound (store : Option String → List Turn)
    (resp : SearchResponse) (q : String)
    (hstore : ∀ s, (store s).length ≤ MAX_HISTORY_TURNS * 2) :
    (∀ s, ((updateSessions store resp q) s).length ≤ MAX_HISTORY_TURNS * 2) ∧
    (updateSessions store resp q) resp.session_id =
      (store resp.session_id ++ [userTurn q, modelTurn (responseSummary resp)]).drop
        ((store resp.session_id).length + 2 - MAX_HISTORY_TURNS * 2) ∧
    ((updateSessions store resp q) resp.session_id).length =
      min ((store resp.session_id).length + 2) (MAX_HISTORY_TURNS * 2) ∧
    (∀ s, s ≠ resp.session_id → (updateSessions store resp q) s = store s) := by
  have h20 : (MAX_HISTORY_TURNS * 2 : Nat) = 20 := rfl
  have hsid : (updateSessions store resp q) resp.session_id =
      truncateHistory (store resp.session_id ++
        [userTurn q, modelTurn (responseSummary resp)]) := by
    rw [updateSessions]
    rw [if_pos rfl]
  have hlenapp : (store resp.session_id ++
      [userTurn q, modelTurn (responseSummary resp)]).length =
      (store resp.session_id).length + 2 := by
    simp
  have heq : (updateSessions store resp q) resp.session_id =
      (store resp.session_id ++ [userTurn q, modelTurn (responseSummary resp)]).drop
        ((store resp.session_id).length + 2 - MAX_HISTORY_TURNS * 2) := by
    rw [hsid, truncateHistory_drop, hlenapp]
  have hlen : ((updateSessions store resp q) resp.session_id).length =
      min ((store resp.session_id).length + 2) (MAX_HISTORY_TURNS * 2) := by
    rw [heq, List.length_drop, hlenapp]
    omega
  refine ⟨?_, heq, hlen, ?_⟩
  · intro s
    by_cases hs : s = resp.session_id
    · rw [hs, hlen]
      omega
    · have : (updateSessions store resp q) s = store s := by
        rw [updateSessions, if_neg hs]
      rw [this]
      exact hstore s
  · intro s hs
    rw [updateSessions, if_neg hs]

/-- C9 witness at an empty store. -/
theorem claim_C9_session_bound_witness :
    ((updateSessions (fun _ => []) c9Resp "hello") c9Resp.session_id).length =
      min ((([] : List Turn)).length + 2) (MAX_HISTORY_TURNS * 2) :=
  (claim_C9_session_bound (fun _ => []) c9Resp "hello"
    (fun _ => Nat.zero_le _)).2.2.1

/-! ## Reconciliation fold lemmas -/

/-- `contains = false` is non-membership (strings have a lawful `BEq`). -/
theorem contains_eq_false_iff (l : List String) (a : String) :
    l.contains a = false ↔ a ∉ l := by
  constructor
  · intro h hmem
    have h2 : l.contains a = true := List.elem_iff.2 hmem
    rw [h2] at h
    exact Bool.noConfusion h
  · intro h
    cases hc : l.contains a with
    | false => rfl
    | true => exact absurd (List.elem_iff.1 hc) h

/-- A chunk whose id was already moved is skipped. -/
theorem promoteStep_moved (p : Product) (revs : List DocumentChunk)
    (moved : List String) (c : DocumentChunk)
    (h : moved.contains c.chunk_id = true) :
    promoteStep p (revs, moved) c = (revs, moved) := by
  rw [promoteStep, if_pos h]

/-- A chunk already among this product's supporting-review ids is
skipped. -/
theorem promoteStep_existing (p : Product) (revs : List DocumentChunk)
    (moved : List String) (c : DocumentChunk)
    (h1 : moved.contains c.chunk_id = false)
    (h2 : (revs.map (·.chunk_id)).contains c.chunk_id = true) :
    promoteStep p (revs, moved) c = (revs, moved) := by
  rw [promoteStep, if_neg (by rw [h1]; exact Bool.false_ne_true), if_pos h2]

/-- A fresh matching positive review is promoted. -/
theorem promoteStep_promote (p : Product) (revs : List DocumentChunk)
    (moved : List String) (c : DocumentChunk)
    (h1 : moved.contains c.chunk_id = false)
    (h2 : (revs.map (·.chunk_id)).contains c.chunk_id = false)
    (h3 : (c.source_type == "review" && matchesProduct p c &&
      decide (3 ≤ starCount c)) = true) :
    promoteStep p (revs, moved) c = (revs ++ [c], moved ++ [c.chunk_id]) := by
  rw [promoteStep, if_neg (by rw [h1]; exact Bool.false_ne_true),
    if_neg (by rw [h2]; exact Bool.false_ne_true), if_pos h3]

/-- A fresh chunk failing the review/match/rating test is skipped. -/
theorem promoteStep_skip (p : Product) (revs : List DocumentChunk)
    (moved : List String) (c : DocumentChunk)
    (h1 : moved.contains c.chunk_id = false)
    (h2 : (revs.map (·.chunk_id)).contains c.chunk_id = false)
    (h3 : (c.source_type == "review" && matchesProduct p c &&
      decide (3 ≤ starCount c)) = false) :
    promoteStep p (revs, moved) c = (revs, moved) := by
  rw [promoteStep, if_neg (by rw [h1]; exact Bool.false_ne_true),
    if_neg (by rw [h2]; exact Bool.false_ne_true),
    if_neg (by rw [h3]; exact Bool.false_ne_true)]

/-- What one product's pass over the context list does: the supporting
reviews grow by a list of promoted chunks, the moved set grows by exactly
their ids, and every promoted chunk is a matching positive review that was
neither moved before the pass nor already among the product's reviews. -/
theorem promote_fold_spec (p : Product) :
    ∀ (contexts : List DocumentChunk) (revs0 : List DocumentChunk)
      (moved0 : List String),
      ∃ promoted : List DocumentChunk,
        (contexts.foldl (promoteStep p) (revs0, moved0)).1 = revs0 ++ promoted ∧
        (contexts.foldl (promoteStep p) (revs0, moved0)).2 =
          moved0 ++ promoted.map (·.chunk_id) ∧
        ∀ c ∈ promoted, c ∈ contexts ∧ c.source_type = "review" ∧
          matchesProduct p c = true ∧ 3 ≤ starCount c ∧
          c.chunk_id ∉ moved0 ∧ c.chunk_id ∉ revs0.map (·.chunk_id) := by
  intro contexts
  induction contexts with
  | nil =>
    intro revs0 moved0
    exact ⟨[], by simp, by simp, by simp⟩
  | cons a cs ih =>
    intro revs0 moved0
    rw [List.foldl_cons]
    cases hm : moved0.contains a.chunk_id with
    | true =>
      rw [promoteStep_moved p revs0 moved0 a hm]
      obtain ⟨pr, g1, g2, g3⟩ := ih revs0 moved0
      exact ⟨pr, g1, g2, fun c hc =>
        ⟨List.mem_cons_of_mem a (g3 c hc).1, (g3 c hc).2⟩⟩
    | false =>
      cases hr : (revs0.map (·.chunk_id)).contains a.chunk_id with
      | true =>
        rw [promoteStep_existing p revs0 moved0 a hm hr]
        obtain ⟨pr, g1, g2, g3⟩ := ih revs0 moved0
        exact ⟨pr, g1, g2, fun c hc =>
          ⟨List.mem_cons_of_mem a (g3 c hc).1, (g3 c hc).2⟩⟩
      | false =>
        cases hcond : (a.source_type == "review" && matchesProduct p a &&
            decide (3 ≤ starCount a)) with
        | false =>
          rw [promoteStep_skip p revs0 moved0 a hm hr hcond]
          obtain ⟨pr, g1, g2, g3⟩ := ih revs0 moved0
          exact ⟨pr, g1, g2, fun c hc =>
            ⟨List.mem_cons_of_mem a (g3 c hc).1, (g3 c hc).2⟩⟩
        | true =>
          rw [promoteStep_promote p revs0 moved0 a hm hr hcond]
          obtain ⟨pr, g1, g2, g3⟩ := ih (revs0 ++ [a]) (moved0 ++ [a.chunk_id])
          have hconds := hcond
          rw [Bool.and_eq_true, Bool.and_eq_true] at hconds
          obtain ⟨⟨hrev, hmatch⟩, hstar⟩ := hconds
          refine ⟨a :: pr, ?_, ?_, ?_⟩
          · rw [g1, List.append_assoc]
            rfl
          · rw [g2, List.map_cons, List.append_assoc]
            rfl
          · intro c hc
            rcases List.mem_cons.1 hc with hc | hc
            · subst hc
              refine ⟨List.mem_cons_self _ _, ?_, hmatch, of_decide_eq_true hstar, ?_, ?_⟩
              · exact beq_iff_eq.1 hrev
              · exact (contains_eq_false_iff _ _).1 hm
              · exact (contains_eq_false_iff _ _).1 hr
            · obtain ⟨q1, q2, q3, q4, q5, q6⟩ := g3 c hc
              refine ⟨List.mem_cons_of_mem a q1, q2, q3, q4, ?_, ?_⟩
              · intro hmem
                exact q5 (List.mem_append.2 (Or.inl hmem))
              · intro hmem
                rw [List.map_append] at q6
                exact q6 (List.mem_append.2 (Or.inl hmem))

/-- A matching positive review present in the context list ends the pass
either moved or among the product's supporting-review ids. -/
theorem promote_fold_complete (p : Product) :
    ∀ (contexts : List DocumentChunk) (revs0 : List DocumentChunk)
      (moved0 : List String) (c : DocumentChunk),
      c ∈ contexts → c.source_type = "review" → matchesProduct p c = true →
      3 ≤ starCount c →
      c.chunk_id ∈ (contexts.foldl (promoteStep p) (revs0, moved0)).2 ∨
      c.chunk_id ∈ ((contexts.foldl (promoteStep p) (revs0, moved0)).1).map
        (·.chunk_id) := by
  intro contexts
  induction contexts with
  | nil =>
    intro revs0 moved0 c hc
    exact absurd hc (List.not_mem_nil c)
  | cons a cs ih =>
    intro revs0 moved0 c hc hrev hmatch hstar
    rw [List.foldl_cons]
    rcases List.mem_cons.1 hc with hca | hcs
    · subst hca
      cases hm : moved0.contains c.chunk_id with
      | true =>
        rw [promoteStep_moved p revs0 moved0 c hm]
        obtain ⟨pr, g1, g2, g3⟩ := promote_fold_spec p cs revs0 moved0
        rw [g2]
        exact Or.inl (List.mem_append.2 (Or.inl (List.elem_iff.1 hm)))
      | false =>
        cases hr : (revs0.map (·.chunk_id)).contains c.chunk_id with
        | true =>
          rw [promoteStep_existing p revs0 moved0 c hm hr]
          obtain ⟨pr, g1, g2, g3⟩ := promote_fold_spec p cs revs0 moved0
          rw [g1, List.map_append]
          exact Or.inr (List.mem_append.2 (Or.inl (List.elem_iff.1 hr)))
        | false =>
          have hcond : (c.source_type == "review" && matchesProduct p c &&
              decide (3 ≤ starCount c)) = true := by
            rw [Bool.and_eq_true, Bool.and_eq_true]
            exact ⟨⟨beq_iff_eq.2 hrev, hmatch⟩, decide_eq_true hstar⟩
          rw [promoteStep_promote p revs0 moved0 c hm hr hcond]
          obtain ⟨pr, g1, g2, g3⟩ := promote_fold_spec p cs (revs0 ++ [c])
            (moved0 ++ [c.chunk_id])
          rw [g2]
          refine Or.inl (List.mem_append.2 (Or.inl ?_))
          exact List.mem_append.2 (Or.inr (List.mem_singleton.2 rfl))
    · rcases hstep : promoteStep p (revs0, moved0) a with ⟨r1, m1⟩
      exact ih r1 m1 c hcs hrev hmatch hstar

/-- Unfolding one outer-loop iteration at a literal accumulator pair. -/
theorem reconcileStep_pair (contexts : List DocumentChunk)
    (acc1 : List ProductResult) (mv : List String) (r : ProductResult) :
    reconcileStep contexts (acc1, mv) r =
      (acc1 ++ [{ r with supporting_reviews :=
        (contexts.foldl (promoteStep r.product) (r.supporting_reviews, mv)).1 }],
       (contexts.foldl (promoteStep r.product) (r.supporting_reviews, mv)).2) := rfl

/-- What the outer loop does, for any starting accumulator: it appends one
processed result per input result; each processed result keeps its product
and justification and grows its supporting reviews by promoted chunks that
are matching positive reviews from the context list, all of whose ids land
in the final moved set; and every id added to the moved set is claimed by
some processed result. -/
theorem reconcileProducts_fold_spec (contexts : List DocumentChunk) :
    ∀ (results : List ProductResult) (acc0 : List ProductResult)
      (moved0 : List String),
      ∃ (processed : List ProductResult) (extra : List String),
        results.foldl (reconcileStep contexts) (acc0, moved0) =
          (acc0 ++ processed, moved0 ++ extra) ∧
        (∀ r' ∈ processed, ∃ r ∈ results,
            r'.product = r.product ∧ r'.justification = r.justification ∧
            ∃ promoted, r'.supporting_reviews = r.supporting_reviews ++ promoted ∧
              (∀ c ∈ promoted, c ∈ contexts ∧ c.source_type = "review" ∧
                matchesProduct r.product c = true ∧ 3 ≤ starCount c ∧
                c.chunk_id ∉ r.supporting_reviews.map (·.chunk_id)) ∧
              ∀ cid ∈ promoted.map (·.chunk_id), cid ∈ moved0 ++ extra) ∧
        (∀ cid ∈ extra, ∃ r' ∈ processed,
            cid ∈ r'.supporting_reviews.map (·.chunk_id)) := by
  intro results
  induction results with
  | nil =>
    intro acc0 moved0
    exact ⟨[], [], by simp, by simp, by simp⟩
  | cons r rest ih =>
    intro acc0 moved0
    rw [List.foldl_cons, reconcileStep_pair]
    obtain ⟨promoted₁, p1, p2, p3⟩ :=
      promote_fold_spec r.product contexts r.supporting_reviews moved0
    rw [p1, p2]
    obtain ⟨processed', extra', q1, q2, q3⟩ :=
      ih (acc0 ++ [{ r with supporting_reviews := r.supporting_reviews ++ promoted₁ }])
        (moved0 ++ promoted₁.map (·.chunk_id))
    refine ⟨{ r with supporting_reviews := r.supporting_reviews ++ promoted₁ } :: processed',
      promoted₁.map (·.chunk_id) ++ extra', ?_, ?_, ?_⟩
    · rw [q1, List.append_assoc, List.append_assoc]
      rfl
    · intro r' hr'
      rcases List.mem_cons.1 hr' with h | h
      · refine ⟨r, List.mem_cons_self r rest, ?_, ?_, promoted₁, ?_, ?_, ?_⟩
        · rw [h]
        · rw [h]
        · rw [h]
        · intro c hc
          obtain ⟨w1, w2, w3, w4, _, w6⟩ := p3 c hc
          exact ⟨w1, w2, w3, w4, w6⟩
        · intro cid hcid
          exact List.mem_append.2 (Or.inr (List.mem_append.2 (Or.inl hcid)))
      · obtain ⟨rr, hrr, e1, e2, promoted, e3, e4, e5⟩ := q2 r' h
        refine ⟨rr, List.mem_cons_of_mem r hrr, e1, e2, promoted, e3, e4, ?_⟩
        intro cid hcid
        have := e5 cid hcid
        rw [List.append_assoc] at this
        exact this
    · intro cid hcid
      rcases List.mem_append.1 hcid with h | h
      · refine ⟨{ r with supporting_reviews := r.supporting_reviews ++ promoted₁ },
          List.mem_cons_self _ _, ?_⟩
        show cid ∈ (r.supporting_reviews ++ promoted₁).map (·.chunk_id)
        rw [List.map_append]
        exact List.mem_append.2 (Or.inr h)
      · obtain ⟨r', hr', hmem⟩ := q3 cid h
        exact ⟨r', List.mem_cons_of_mem _ hr', hmem⟩

/-- Outer-loop completeness: a positive review chunk from the context list
matching at least one recommended product and claimed by no product ends
up in the final moved set. -/
theorem reconcileProducts_complete_aux (contexts : List DocumentChunk) :
    ∀ (results : List ProductResult) (acc0 : List ProductResult)
      (moved0 : List String) (c : DocumentChunk),
      c ∈ contexts → c.source_type = "review" → 3 ≤ starCount c →
      (∃ r ∈ results, matchesProduct r.product c = true) →
      (∀ r ∈ results, c.chunk_id ∉ r.supporting_reviews.map (·.chunk_id)) →
      c.chunk_id ∈ (results.foldl (reconcileStep contexts) (acc0, moved0)).2 := by
  intro results
  induction results with
  | nil =>
    intro _ _ _ _ _ _ hex _
    rcases hex with ⟨r, hr, _⟩
    exact absurd hr (List.not_mem_nil r)
  | cons r rest ih =>
    intro acc0 moved0 c hc hrev hstar hex hnone
    rw [List.foldl_cons, reconcileStep_pair]
    rcases hex with ⟨rr, hrr, hmatch⟩
    rcases List.mem_cons.1 hrr with h | h
    · rw [h] at hmatch
      have hcomp := promote_fold_complete r.product contexts r.supporting_reviews
        moved0 c hc hrev hmatch hstar
      obtain ⟨promoted₁, p1, p2, p3⟩ :=
        promote_fold_spec r.product contexts r.supporting_reviews moved0
      have hmem2 : c.chunk_id ∈
          (contexts.foldl (promoteStep r.product) (r.supporting_reviews, moved0)).2 := by
        rcases hcomp with h2 | h2
        · exact h2
        · rw [p1, List.map_append] at h2
          rcases List.mem_append.1 h2 with h3 | h3
          · exact absurd h3 (hnone r (List.mem_cons_self r rest))
          · rw [p2]
            exact List.mem_append.2 (Or.inr h3)
      obtain ⟨processed', extra', q1, q2, q3⟩ :=
        reconcileProducts_fold_spec contexts rest
          (acc0 ++ [{ r with supporting_reviews :=
            (contexts.foldl (promoteStep r.product) (r.supporting_reviews, moved0)).1 }])
          ((contexts.foldl (promoteStep r.product) (r.supporting_reviews, moved0)).2)
      rw [q1]
      exact List.mem_append.2 (Or.inl hmem2)
    · exact ih (acc0 ++ [{ r with supporting_reviews :=
          (contexts.foldl (promoteStep r.product) (r.supporting_reviews, moved0)).1 }])
        ((contexts.foldl (promoteStep r.product) (r.supporting_reviews, moved0)).2)
        c hc hrev hstar ⟨rr, h, hmatch⟩
        (fun r2 hr2 => hnone r2 (List.mem_cons_of_mem r hr2))

/-- Provenance of any result emitted by the reconciliation stage. -/
theorem mem_reconcileProducts (contexts : List DocumentChunk)
    (results : List ProductResult) (r' : ProductResult)
    (h : r' ∈ (reconcileProducts contexts results).1) :
    ∃ r ∈ results, r'.product = r.product ∧ r'.justification = r.justification ∧
      ∃ promoted, r'.supporting_reviews = r.supporting_reviews ++ promoted ∧
        (∀ c ∈ promoted, c ∈ contexts ∧ c.source_type = "review" ∧
          matchesProduct r.product c = true ∧ 3 ≤ starCount c ∧
          c.chunk_id ∉ r.supporting_reviews.map (·.chunk_id)) ∧
        ∀ cid ∈ promoted.map (·.chunk_id),
          cid ∈ (reconcileProducts contexts results).2 := by
  obtain ⟨processed, extra, q1, q2, q3⟩ :=
    reconcileProducts_fold_spec contexts results [] []
  rw [reconcileProducts, q1] at h ⊢
  rw [List.nil_append] at h
  obtain ⟨r, hr, e1, e2, promoted, e3, e4, e5⟩ := q2 r' h
  refine ⟨r, hr, e1, e2, promoted, e3, e4, ?_⟩
  intro cid hcid
  have := e5 cid hcid
  rw [List.nil_append] at this
  exact this

/-- Every id in the final moved set is claimed by some emitted result. -/
theorem reconcileProducts_moved_claimed (contexts : List DocumentChunk)
    (results : List ProductResult) (cid : String)
    (h : cid ∈ (reconcileProducts contexts results).2) :
    ∃ r' ∈ (reconcileProducts contexts results).1,
      cid ∈ r'.supporting_reviews.map (·.chunk_id) := by
  obtain ⟨processed, extra, q1, q2, q3⟩ :=
    reconcileProducts_fold_spec contexts results [] []
  rw [reconcileProducts, q1] at h ⊢
  rw [List.nil_append] at h
  obtain ⟨r', hr', hmem⟩ := q3 cid h
  exact ⟨r', by rw [List.nil_append]; exact hr', hmem⟩

/-- Completeness at the empty starting accumulator. -/
theorem reconcileProducts_complete (contexts : List DocumentChunk)
    (results : List ProductResult) (c : DocumentChunk)
    (hc : c ∈ contexts) (hrev : c.source_type = "review")
    (hstar : 3 ≤ starCount c)
    (hex : ∃ r ∈ results, matchesProduct r.product c = true)
    (hnone : ∀ r ∈ results, c.chunk_id ∉ r.supporting_reviews.map (·.chunk_id)) :
    c.chunk_id ∈ (reconcileProducts contexts results).2 :=
  reconcileProducts_complete_aux contexts results [] [] c hc hrev hstar hex hnone

/-! ## Stage provenance lemmas -/

/-- Provenance through the validate-and-merge stage: every kept result
resolves in the catalog to exactly its own product and carries the
original justification and supporting reviews. -/
theorem mem_validateResults (catalog : List Product) (l : List ProductResult)
    (r : ProductResult) (h : r ∈ validateResults catalog l) :
    ∃ r0 ∈ l, catalogLookup catalog r.product.product_id = some r.product ∧
      r.justification = r0.justification ∧
      r.supporting_reviews = r0.supporting_reviews := by
  rw [validateResults] at h
  obtain ⟨r0, hr0, hf⟩ := List.mem_filterMap.1 h
  cases hl : catalogLookup catalog r0.product.product_id with
  | none =>
    rw [hl] at hf
    exact Option.noConfusion hf
  | some p =>
    rw [hl] at hf
    rw [Option.some.injEq] at hf
    have hpid : p.product_id = r0.product.product_id := by
      have hfind := List.find?_some hl
      exact beq_iff_eq.1 hfind
    refine ⟨r0, hr0, ?_, ?_, ?_⟩
    · rw [← hf]
      show catalogLookup catalog p.product_id = some p
      rw [hpid, hl]
    · rw [← hf]
    · rw [← hf]

/-- Membership through the re-rank stage (a permutation of the input). -/
theorem mem_rerankResults (l : List ProductResult) (r : ProductResult)
    (h : r ∈ rerankResults l) : r ∈ l := by
  simp only [rerankResults] at h
  by_cases he : (l.filter (fun r => r.product.margin_percentage.isSome)).isEmpty
  · rw [if_pos he] at h
    exact h
  · rw [if_neg he] at h
    rcases List.mem_append.1 h with h | h
    · have hperm := List.mergeSort_perm
        (l.filter (fun r => r.product.margin_percentage.isSome))
        (fun a b => decide (marginKey b ≤ marginKey a))
      exact List.mem_of_mem_filter (hperm.mem_iff.1 h)
    · exact List.mem_of_mem_filter h

/-- Provenance through the guarded validate stage. -/
theorem mem_stageValidate (catalog : List Product)
    (ropt : Option (List ProductResult)) (r : ProductResult)
    (h : r ∈ (stageValidate catalog ropt).getD []) :
    ∃ l, ropt = some l ∧ r ∈ validateResults catalog l := by
  cases ropt with
  | none => simp [stageValidate] at h
  | some l =>
    refine ⟨l, rfl, ?_⟩
    simp only [stageValidate] at h
    by_cases he : l.isEmpty
    · rw [if_pos he] at h
      rw [List.isEmpty_iff.1 he] at h
      simp at h
    · rw [if_neg he] at h
      simpa using h

/-- Provenance through the guarded re-rank stage. -/
theorem mem_stageRerank (ropt : Option (List ProductResult)) (r : ProductResult)
    (h : r ∈ (stageRerank ropt).getD []) :
    ∃ l, ropt = some l ∧ r ∈ l := by
  cases ropt with
  | none => simp [stageRerank] at h
  | some l =>
    refine ⟨l, rfl, ?_⟩
    simp only [stageRerank] at h
    by_cases he : l.isEmpty
    · rw [if_pos he] at h
      simpa using h
    · rw [if_neg he] at h
      exact mem_rerankResults l r (by simpa using h)

/-- A hydrated used chunk keeps the cited id as its `chunk_id`. -/
theorem hydrateChunk_chunk_id (raws : List RawChunk) (cid : String)
    (c : DocumentChunk) (h : hydrateChunk raws cid = some c) :
    c.chunk_id = cid := by
  simp only [hydrateChunk] at h
  split at h
  · exact Option.noConfusion h
  · split at h
    · rw [Option.some.injEq] at h
      rw [← h]
    · exact Option.noConfusion h

/-- A hydrated supporting review resolves through `hydrateChunk` and has
review source type. -/
theorem hydrateReview_eq_some (raws : List RawChunk) (cid : String)
    (c : DocumentChunk) (h : hydrateReview raws cid = some c) :
    hydrateChunk raws cid = some c ∧ c.source_type = "review" := by
  rw [hydrateReview] at h
  split at h
  · exact Option.noConfusion h
  · rename_i c0 heq
    split at h
    · rename_i hs
      rw [Option.some.injEq] at h
      subst h
      exact ⟨heq, beq_iff_eq.1 hs⟩
    · exact Option.noConfusion h

/-- Hydrated used chunks carry ids from `used_rag_context_ids`. -/
theorem mem_hydrateUsed (raws : List RawChunk) (ids : List String)
    (c : DocumentChunk) (h : c ∈ ids.filterMap (hydrateChunk raws)) :
    c.chunk_id ∈ ids := by
  obtain ⟨cid, hcid, hc⟩ := List.mem_filterMap.1 h
  rw [hydrateChunk_chunk_id raws cid c hc]
  exact hcid

/-- Membership in the final evidence pool. -/
theorem mem_finalPool (contexts : List DocumentChunk) (moved : List String)
    (c : DocumentChunk) (h : c ∈ finalPool contexts moved) :
    c ∈ contexts ∧ c.chunk_id ∉ moved := by
  rw [finalPool] at h
  have hmf := List.mem_filter.1 h
  refine ⟨hmf.1, ?_⟩
  have hb := hmf.2
  rw [Bool.not_eq_true'] at hb
  exact (contains_eq_false_iff _ _).1 hb

/-- The final results of the post-processing pipeline come from the
reconciliation stage applied to the re-ranked validated results. -/
theorem searchPostProcess_results (catalog : List Product) (resp : SearchResponse)
    (r' : ProductResult)
    (h : r' ∈ (searchPostProcess catalog resp).results.getD []) :
    r' ∈ (reconcileProducts (resp.rag_contexts.getD [])
      ((stageRerank (stageValidate catalog resp.results)).getD [])).1 := by
  simp only [searchPostProcess] at h
  split at h
  · simp at h
  · simpa using h

/-- The final top-level evidence list of the post-processing pipeline. -/
theorem searchPostProcess_rag_contexts (catalog : List Product)
    (resp : SearchResponse) :
    (searchPostProcess catalog resp).rag_contexts =
      some (finalPool (resp.rag_contexts.getD [])
        (reconcileProducts (resp.rag_contexts.getD [])
          ((stageRerank (stageValidate catalog resp.results)).getD [])).2) := by
  simp only [searchPostProcess]
  split
  · rfl
  · rfl

/-! ## The pipeline claims -/

/-- C1: every product result of the final response resolves in the catalog
dict to exactly its own product record — a model-proposed result survives
only when its asserted id exists in the catalog, its product fields are the
authoritative catalog record for that id (nothing of the model's product
payload but the id survives), and a result with an unresolvable id never
appears. -/
theorem claim_C1_catalog_merge (catalog : List Product) (raws : List RawChunk)
    (sidIn : Option String) (freshId : String) (j : LLMJson) :
    ∀ r ∈ ((conversational_search_core catalog raws sidIn freshId j).results.getD []),
      catalogLookup catalog r.product.product_id = some r.product := by
  intro r hr
  have h1 := searchPostProcess_results catalog
    (llmSuccessResponse raws sidIn freshId j) r hr
  obtain ⟨r2, hr2, e1, _, _, _, _, _⟩ := mem_reconcileProducts _ _ r h1
  obtain ⟨l1, hl1, hmem1⟩ := mem_stageRerank _ r2 hr2
  have hval : r2 ∈ (stageValidate catalog
      (llmSuccessResponse raws sidIn freshId j).results).getD [] := by
    rw [hl1]
    simpa using hmem1
  obtain ⟨l0, _, hmem0⟩ := mem_stageValidate _ _ r2 hval
  obtain ⟨r0, _, hlook, _, _⟩ := mem_validateResults catalog l0 r2 hmem0
  rw [e1]
  exact hlook

/-- C1 witness: a concrete recommendation for `PA` keeps the catalog
record. -/
theorem claim_C1_catalog_merge_witness :
    ∃ r ∈ ((conversational_search_core [prodA] [] none "f1" c1Json).results.getD []),
      catalogLookup [prodA] r.product.product_id = some r.product := by
  refine ⟨{ product := prodA }, by decide, ?_⟩
  exact claim_C1_catalog_merge [prodA] [] none "f1" c1Json
    { product := prodA } (by decide)

/-- C3: after the re-rank stage, the output is the margin-bearing results
(sorted non-increasingly by margin, a permutation of the margin-bearing
input) followed by the margin-less results in their model-given relative
order — never interleaved before them. -/
theorem claim_C3_margin_rerank (results : List ProductResult)
    (h : 2 ≤ (results.filter (fun r => r.product.margin_percentage.isSome)).length) :
    ∃ front back, rerankResults results = front ++ back ∧
      front.Perm (results.filter (fun r => r.product.margin_percentage.isSome)) ∧
      back = results.filter (fun r => r.product.margin_percentage.isNone) ∧
      (∀ r ∈ front, r.product.margin_percentage.isSome = true) ∧
      (∀ r ∈ back, r.product.margin_percentage.isNone = true) ∧
      front.Pairwise (fun a b => marginKey b ≤ marginKey a) := by
  have hne : ¬ (results.filter (fun r => r.product.margin_percentage.isSome)).isEmpty = true := by
    intro habs
    rw [List.isEmpty_iff] at habs
    rw [habs] at h
    simp at h
  refine ⟨(results.filter (fun r => r.product.margin_percentage.isSome)).mergeSort
      (fun a b => decide (marginKey b ≤ marginKey a)),
    results.filter (fun r => r.product.margin_percentage.isNone),
    ?_, List.mergeSort_perm _ _, rfl, ?_, ?_, ?_⟩
  · simp only [rerankResults]
    rw [if_neg hne]
  · intro r hr
    have hmem := (List.mergeSort_perm
      (results.filter (fun r => r.product.margin_percentage.isSome))
      (fun a b => decide (marginKey b ≤ marginKey a))).mem_iff.1 hr
    exact (List.mem_filter.1 hmem).2
  · intro r hr
    exact (List.mem_filter.1 hr).2
  · have htrans : ∀ (a b c : ProductResult),
        decide (marginKey b ≤ marginKey a) = true →
        decide (marginKey c ≤ marginKey b) = true →
        decide (marginKey c ≤ marginKey a) = true := by
      intro a b c hab hbc
      exact decide_eq_true (le_trans (of_decide_eq_true hbc) (of_decide_eq_true hab))
    have htotal : ∀ (a b : ProductResult),
        (decide (marginKey b ≤ marginKey a) || decide (marginKey a ≤ marginKey b)) = true := by
      intro a b
      rcases le_total (marginKey b) (marginKey a) with h1 | h1
      · rw [decide_eq_true h1]
        rfl
      · rw [decide_eq_true h1]
        exact Bool.or_true _
    have hs := List.sorted_mergeSort htrans htotal
      (results.filter (fun r => r.product.margin_percentage.isSome))
    exact hs.imp (fun hab => of_decide_eq_true hab)

/-- C3 witness: two margin-bearing results listed in ascending order plus
one margin-less result. -/
theorem claim_C3_margin_rerank_witness :
    2 ≤ (c3Results.filter (fun r => r.product.margin_percentage.isSome)).length ∧
    (∃ front back, rerankResults c3Results = front ++ back ∧
      front.Perm (c3Results.filter (fun r => r.product.margin_percentage.isSome)) ∧
      back = c3Results.filter (fun r => r.product.margin_percentage.isNone) ∧
      (∀ r ∈ front, r.product.margin_percentage.isSome = true) ∧
      (∀ r ∈ back, r.product.margin_percentage.isNone = true) ∧
      front.Pairwise (fun a b => marginKey b ≤ marginKey a)) :=
  ⟨by decide, claim_C3_margin_rerank c3Results (by decide)⟩

/-- C2 counterexample: when the model cites chunk `cX` both in
`used_rag_context_ids` and in product `PA`'s `supporting_review_chunk_ids`,
the chunk id appears both in that product's supporting reviews and in the
top-level `rag_contexts` of the same response — evidence exclusivity fails
as stated. -/
theorem claim_C2_counterexample :
    ∃ r ∈ ((conversational_search_core [prodA] [c2Raw] none "fresh"
        c2Json).results.getD []),
      ∃ rev ∈ r.supporting_reviews,
        ∃ ctx ∈ ((conversational_search_core [prodA] [c2Raw] none "fresh"
            c2Json).rag_contexts.getD []),
          rev.chunk_id = ctx.chunk_id := by
  decide

/-- C2 (amended): exclusivity does hold whenever the model's per-product
supporting-review citations are disjoint from `used_rag_context_ids`: a
chunk promoted during reconciliation is removed from the top-level list,
and an originally-cited supporting review cannot reappear there. -/
theorem claim_C2_amended (catalog : List Product) (raws : List RawChunk)
    (sidIn : Option String) (freshId : String) (j : LLMJson)
    (hdisj : ∀ item ∈ j.results.getD [], ∀ cid ∈ item.supporting_review_chunk_ids,
        cid ∉ j.used_rag_context_ids) :
    ∀ r ∈ ((conversational_search_core catalog raws sidIn freshId j).results.getD []),
      ∀ rev ∈ r.supporting_reviews,
        ∀ ctx ∈ ((conversational_search_core catalog raws sidIn freshId
            j).rag_contexts.getD []),
          rev.chunk_id ≠ ctx.chunk_id := by
  intro r hr rev hrev ctx hctx
  rw [conversational_search_core] at hr hctx
  rw [searchPostProcess_rag_contexts catalog
    (llmSuccessResponse raws sidIn freshId j), Option.getD_some] at hctx
  obtain ⟨hctx_mem, hctx_not⟩ := mem_finalPool _ _ ctx hctx
  have hctx_hyd : ctx ∈ j.used_rag_context_ids.filterMap (hydrateChunk raws) :=
    hctx_mem
  have hctx_used : ctx.chunk_id ∈ j.used_rag_context_ids :=
    mem_hydrateUsed raws _ ctx hctx_hyd
  have h1 := searchPostProcess_results catalog
    (llmSuccessResponse raws sidIn freshId j) r hr
  obtain ⟨r2, hr2, _, _, promoted, e3, _, e5⟩ := mem_reconcileProducts _ _ r h1
  rw [e3] at hrev
  rcases List.mem_append.1 hrev with hrev0 | hrevP
  · obtain ⟨l1, hl1, hmem1⟩ := mem_stageRerank _ r2 hr2
    have hval : r2 ∈ (stageValidate catalog
        (llmSuccessResponse raws sidIn freshId j).results).getD [] := by
      rw [hl1]
      simpa using hmem1
    obtain ⟨l0, hl0, hval0⟩ := mem_stageValidate _ _ r2 hval
    obtain ⟨r0, hr0, _, _, hrevs⟩ := mem_validateResults catalog l0 r2 hval0
    have hl0' : j.results.map (fun items => items.map (llmItemToResult raws)) =
        some l0 := hl0
    cases hjr : j.results with
    | none =>
      rw [hjr] at hl0'
      exact Option.noConfusion hl0'
    | some items =>
      rw [hjr, Option.map_some'] at hl0'
      rw [Option.some.injEq] at hl0'
      rw [← hl0'] at hr0
      obtain ⟨item, hitem, hre⟩ := List.mem_map.1 hr0
      rw [hrevs, ← hre] at hrev0
      have hrev0' : rev ∈ item.supporting_review_chunk_ids.filterMap
          (hydrateReview raws) := hrev0
      obtain ⟨cid, hcid, hh⟩ := List.mem_filterMap.1 hrev0'
      obtain ⟨hchunk, _⟩ := hydrateReview_eq_some raws cid rev hh
      have hid : rev.chunk_id = cid := hydrateChunk_chunk_id raws cid rev hchunk
      have hnot : cid ∉ j.used_rag_context_ids := by
        refine hdisj item ?_ cid hcid
        rw [hjr]
        simpa using hitem
      intro heq
      rw [← heq, hid] at hctx_used
      exact hnot hctx_used
  · have hmoved : rev.chunk_id ∈ (reconcileProducts
        ((llmSuccessResponse raws sidIn freshId j).rag_contexts.getD [])
        ((stageRerank (stageValidate catalog
          (llmSuccessResponse raws sidIn freshId j).results)).getD [])).2 :=
      e5 rev.chunk_id (List.mem_map_of_mem _ hrevP)
    intro heq
    rw [heq] at hmoved
    exact hctx_not hmoved

/-- C2 witness: a disjoint-citation scenario where exclusivity holds. -/
theorem claim_C2_amended_witness :
    (∀ item ∈ c2wJson.results.getD [], ∀ cid ∈ item.supporting_review_chunk_ids,
        cid ∉ c2wJson.used_rag_context_ids) ∧
    ∀ r ∈ ((conversational_search_core [prodA] [c2wRaw] none "f2"
        c2wJson).results.getD []),
      ∀ rev ∈ r.supporting_reviews,
        ∀ ctx ∈ ((conversational_search_core [prodA] [c2wRaw] none "f2"
            c2wJson).rag_contexts.getD []),
          rev.chunk_id ≠ ctx.chunk_id :=
  ⟨by decide, claim_C2_amended [prodA] [c2wRaw] none "f2" c2wJson (by decide)⟩

/-- C7 counterexample: chunk `cX7` is already claimed as a supporting
review of the FIRST product, yet the reconciliation stage promotes it into
the SECOND product — so "not already claimed as a supporting review for
any product" is not a necessary condition for promotion as the claim
states (only the per-product list and the moved set are consulted). -/
theorem claim_C7_counterexample :
    c7Results.map (fun r => r.supporting_reviews.map (·.chunk_id)) =
      [["cX7"], []] ∧
    (reconcileProducts [c7X] c7Results).1.map
      (fun r => r.supporting_reviews.map (·.chunk_id)) = [["cX7"], ["cX7"]] ∧
    finalPool [c7X] (reconcileProducts [c7X] c7Results).2 = [] := by
  refine ⟨by decide, by decide, by decide⟩

/-- C7 (amended): a used review-type chunk is promoted into a product's
supporting reviews exactly when it is not already moved, not already in
THAT product's own supporting-review list, matches the product by metadata
product id or — failing that — case-insensitive name, and carries at least
three star glyphs; every promoted chunk leaves the top-level pool.  A
chunk claimed by no product at all that meets the conditions for some
product is always promoted. -/
theorem claim_C7_amended (contexts : List DocumentChunk)
    (results : List ProductResult) :
    (∀ r' ∈ (reconcileProducts contexts results).1,
      ∃ r ∈ results, r'.product = r.product ∧
        ∃ promoted, r'.supporting_reviews = r.supporting_reviews ++ promoted ∧
          (∀ c ∈ promoted, c ∈ contexts ∧ c.source_type = "review" ∧
            matchesProduct r.product c = true ∧ 3 ≤ starCount c ∧
            c.chunk_id ∉ r.supporting_reviews.map (·.chunk_id)) ∧
          (∀ c ∈ promoted,
            ∀ ctx ∈ finalPool contexts (reconcileProducts contexts results).2,
              ctx.chunk_id ≠ c.chunk_id)) ∧
    (∀ c ∈ contexts, c.source_type = "review" → 3 ≤ starCount c →
      (∃ r ∈ results, matchesProduct r.product c = true) →
      (∀ r ∈ results, c.chunk_id ∉ r.supporting_reviews.map (·.chunk_id)) →
      c.chunk_id ∈ (reconcileProducts contexts results).2 ∧
      (∃ r' ∈ (reconcileProducts contexts results).1,
        c.chunk_id ∈ r'.supporting_reviews.map (·.chunk_id)) ∧
      ∀ ctx ∈ finalPool contexts (reconcileProducts contexts results).2,
        ctx.chunk_id ≠ c.chunk_id) := by
  constructor
  · intro r' hr'
    obtain ⟨r, hr, e1, _, promoted, e3, e4, e5⟩ :=
      mem_reconcileProducts contexts results r' hr'
    refine ⟨r, hr, e1, promoted, e3, e4, ?_⟩
    intro c hc ctx hctx heq
    obtain ⟨_, hnot⟩ := mem_finalPool _ _ ctx hctx
    have : c.chunk_id ∈ (reconcileProducts contexts results).2 :=
      e5 c.chunk_id (List.mem_map_of_mem _ hc)
    rw [heq] at hnot
    exact hnot this
  · intro c hc hrev hstar hex hnone
    have hmoved := reconcileProducts_complete contexts results c hc hrev hstar hex hnone
    refine ⟨hmoved, reconcileProducts_moved_claimed contexts results c.chunk_id hmoved, ?_⟩
    intro ctx hctx heq
    obtain ⟨_, hnot⟩ := mem_finalPool _ _ ctx hctx
    rw [heq] at hnot
    exact hnot hmoved

/-- C7 witness: a three-star unclaimed review matching product `PC` is
promoted and leaves the pool. -/
theorem claim_C7_amended_witness :
    (c7Y ∈ [c7Y] ∧ c7Y.source_type = "review" ∧ 3 ≤ starCount c7Y ∧
      (∃ r ∈ c7wResults, matchesProduct r.product c7Y = true) ∧
      (∀ r ∈ c7wResults, c7Y.chunk_id ∉ r.supporting_reviews.map (·.chunk_id))) ∧
    c7Y.chunk_id ∈ (reconcileProducts [c7Y] c7wResults).2 ∧
    ∃ r' ∈ (reconcileProducts [c7Y] c7wResults).1,
      c7Y.chunk_id ∈ r'.supporting_reviews.map (·.chunk_id) :=
  ⟨⟨by decide, by decide, by decide, by decide, by decide⟩,
   ((claim_C7_amended [c7Y] c7wResults).2 c7Y (by decide) (by decide) (by decide)
     (by decide) (by decide)).1,
   ((claim_C7_amended [c7Y] c7wResults).2 c7Y (by decide) (by decide) (by decide)
     (by decide) (by decide)).2.1⟩

/-- C8 counterexample: the model cites the two retrieved chunks in
reversed order; the final top-level `rag_contexts` follows the model's
citation order `[cB, cA]`, not the retrieval-batch order `[cA, cB]`, with
no product claiming either chunk. -/
theorem claim_C8_counterexample :
    ((conversational_search_core [] [c8RawA, c8RawB] none "f8"
        c8Json).rag_contexts.getD []).map (·.chunk_id) = ["cB", "cA"] ∧
    [c8RawA, c8RawB].map (·.id) = ["cA", "cB"] ∧
    (conversational_search_core [] [c8RawA, c8RawB] none "f8" c8Json).results =
      none ∧
    (["cB", "cA"] : List String) ≠ ["cA", "cB"] := by
  refine ⟨by decide, by decide, by decide, by decide⟩

/-- C8 (amended): the top-level `rag_contexts` list consists of the
successfully hydrated used chunks in the order the model cited them in
`used_rag_context_ids`, with exactly the chunks promoted into some
product's supporting reviews filtered out. -/
theorem claim_C8_amended (catalog : List Product) (raws : List RawChunk)
    (sidIn : Option String) (freshId : String) (j : LLMJson) :
    ∃ moved : List String,
      (conversational_search_core catalog raws sidIn freshId j).rag_contexts =
        some ((j.used_rag_context_ids.filterMap (hydrateChunk raws)).filter
          (fun c => !(moved.contains c.chunk_id))) ∧
      (∀ cid ∈ moved,
        ∃ r ∈ ((conversational_search_core catalog raws sidIn freshId
            j).results.getD []),
          cid ∈ r.supporting_reviews.map (·.chunk_id)) ∧
      ((conversational_search_core catalog raws sidIn freshId j).rag_contexts.getD
        []).Sublist (j.used_rag_context_ids.filterMap (hydrateChunk raws)) ∧
      ∀ c ∈ ((conversational_search_core catalog raws sidIn freshId
          j).rag_contexts.getD []),
        c.chunk_id ∈ j.used_rag_context_ids := by
  refine ⟨(reconcileProducts
      ((llmSuccessResponse raws sidIn freshId j).rag_contexts.getD [])
      ((stageRerank (stageValidate catalog
        (llmSuccessResponse raws sidIn freshId j).results)).getD [])).2,
    ?_, ?_, ?_, ?_⟩
  · exact searchPostProcess_rag_contexts catalog
      (llmSuccessResponse raws sidIn freshId j)
  · intro cid hcid
    cases hr2 : stageRerank (stageValidate catalog
        (llmSuccessResponse raws sidIn freshId j).results) with
    | none =>
      rw [hr2] at hcid
      simp [reconcileProducts] at hcid
    | some l2 =>
      rw [hr2] at hcid
      obtain ⟨r', hr', hmem⟩ := reconcileProducts_moved_claimed _ _ cid hcid
      refine ⟨r', ?_, hmem⟩
      show r' ∈ (searchPostProcess catalog
        (llmSuccessResponse raws sidIn freshId j)).results.getD []
      simp only [searchPostProcess]
      rw [hr2]
      simpa using hr'
  · rw [conversational_search_core, searchPostProcess_rag_contexts catalog
      (llmSuccessResponse raws sidIn freshId j), Option.getD_some]
    exact List.filter_sublist _
  · intro c hc
    rw [conversational_search_core, searchPostProcess_rag_contexts catalog
      (llmSuccessResponse raws sidIn freshId j), Option.getD_some] at hc
    obtain ⟨hmem, _⟩ := mem_finalPool _ _ c hc
    exact mem_hydrateUsed raws _ c hmem

/-- C8 witness: the amended statement at the reversed-citation scenario. -/
theorem claim_C8_amended_witness :
    ∃ moved : List String,
      (conversational_search_core [] [c8RawA, c8RawB] none "f8"
          c8Json).rag_contexts =
        some ((c8Json.used_rag_context_ids.filterMap
          (hydrateChunk [c8RawA, c8RawB])).filter
            (fun c => !(moved.contains c.chunk_id))) ∧
      (∀ cid ∈ moved,
        ∃ r ∈ ((conversational_search_core [] [c8RawA, c8RawB] none "f8"
            c8Json).results.getD []),
          cid ∈ r.supporting_reviews.map (·.chunk_id)) ∧
      ((conversational_search_core [] [c8RawA, c8RawB] none "f8"
          c8Json).rag_contexts.getD []).Sublist
        (c8Json.used_rag_context_ids.filterMap (hydrateChunk [c8RawA, c8RawB])) ∧
      ∀ c ∈ ((conversational_search_core [] [c8RawA, c8RawB] none "f8"
          c8Json).rag_contexts.getD []),
        c.chunk_id ∈ c8Json.used_rag_context_ids :=
  claim_C8_amended [] [c8RawA, c8RawB] none "f8" c8Json

end StealthEcom

